import Mathlib

/-!
Shallow embedding of the occurrence-resolution engine of
`src/waybar/meetings.py` (Waybar meetings module for Thunderbird
calendars), together with theorems checking the specification's claims.

Modelling conventions:
* An instant is its number of microseconds since the Unix epoch (`Int`).
  Python `datetime.astimezone` never changes the instant a value denotes,
  only its wall-clock presentation, so timezone conversion is the identity
  in this model and the `event_start_tz` column does not influence any
  instant comparison.
* `datetime.fromtimestamp` fails (raises) outside the representable
  `datetime` range; `from_epoch` returns `none` there, and also when the
  raw column value is SQL NULL (`int(None)` raises inside the same
  `try`).
* The external recurrence oracle (`dateutil.rrulestr` + `between`) is a
  function parameter returning `none` when rule parsing/evaluation raises,
  and `some insts` (candidate start instants inside the queried window)
  otherwise.
* A candidate store is either unusable (snapshot/open failure, missing
  `cal_events` table, failed structured read — a structured-read failure
  happens while querying, before any record of that store is turned into
  an occurrence) or a usable store carrying its event rows and its
  negative-exception keys (a missing or unreadable `cal_exceptions` table
  yields the empty key set).
-/

namespace Meetings

/-- An instant: microseconds since the Unix epoch. -/
abbrev Instant := Int

/-- Smallest instant representable by Python `datetime` (year 1), in µs. -/
def dtMinUs : Int := -62135596800000000

/-- Largest instant representable by Python `datetime` (year 9999), in µs. -/
def dtMaxUs : Int := 253402300799999999

/-- Model of `from_epoch(ts, factor, tzinfo)`: divide the raw value by the unit
factor and build a zoned datetime; any failure (NULL value, out-of-range
timestamp) yields `None`.  For the factors the program uses
(1, 1 000, 1 000 000) the division is exact in microseconds. -/
def from_epoch (ts : Option Int) (factor : Int) : Option Instant :=
  match ts with
  | none => none
  | some t =>
      let us := t * (1000000 / factor)
      if dtMinUs ≤ us ∧ us ≤ dtMaxUs then some us else none

/-- Model of `to_epoch(dt, factor) = int(dt.timestamp() * factor)`: seconds times
the factor, truncated toward zero (Python `int()`). -/
def to_epoch (dt : Instant) (factor : Int) : Int :=
  Int.tdiv (dt * factor) 1000000

/-- One row of the `cal_events` ⋈ `cal_properties` query: id, cal_id,
event_start, event_end, event_start_tz, RRULE value. -/
structure EventRecord where
  id : Int
  cal_id : Int
  event_start : Option Int
  event_end : Option Int
  event_start_tz : Option String
  rrule : Option String
deriving Repr, DecidableEq

/-- Model of `detect_unit`: classify the store by `MAX(event_start)` over non-NULL
starts; empty or unreadable table defaults to microseconds. -/
def detect_unit (events : List EventRecord) : Int :=
  match (events.filterMap (fun e => e.event_start)).max? with
  | none => 1000000
  | some val =>
      let v := val.natAbs
      if v ≥ 10 ^ 15 then 1000000
      else if v ≥ 10 ^ 12 then 1000
      else if v ≥ 10 ^ 9 then 1
      else 1000000

/-- An occurrence as collected in `todays_instances`:
`(start_local, end_local)`. -/
abbrev Occ := Instant × Option Instant

/-- Guard `sod_local <= start <= eod_local` (`starts_today`). -/
def starts_today (sod eod s : Instant) : Bool :=
  decide (sod ≤ s ∧ s ≤ eod)

/-- Guard `end is not None and start <= eod_local and end >= sod_local`
(`overlaps_today`). -/
def overlaps_today (sod eod : Instant) (s : Instant) (e : Option Instant) : Bool :=
  match e with
  | some e => decide (s ≤ eod ∧ sod ≤ e)
  | none => false

/-- The non-recurring branch (also the RRULE-failure fallback): keep the
anchor `(start, end)` iff it starts today or overlaps today. -/
def singleOcc (sod eod : Instant) (s : Instant) (e : Option Instant) : List Occ :=
  if starts_today sod eod s || overlaps_today sod eod s e then [(s, e)] else []

/-- Assignment `inst_end_local = (inst_start_local + duration) if duration else None`:
Python truthiness means both an absent and a zero duration leave the
instance end absent. -/
def instEnd (duration : Option Int) (inst : Instant) : Option Instant :=
  match duration with
  | some d => if d = 0 then none else some (inst + d)
  | none => none

/-- The per-candidate body of the recurrence loop.  A candidate whose
`(cal_id, to_epoch inst unit)` key is a negative exception is dropped;
a surviving candidate is kept iff it starts today or overlaps today. -/
def candidateOcc (exceptions : List (Int × Int)) (cal_id : Int)
    (duration : Option Int) (unit sod eod : Instant) (inst : Instant) :
    Option Occ :=
  let inst_end := instEnd duration inst
  if (cal_id, to_epoch inst unit) ∈ exceptions then none
  else if starts_today sod eod inst || overlaps_today sod eod inst inst_end then
    some (inst, inst_end)
  else none

/-- The recurrence oracle: rule text, anchor start, window start, window
end ↦ candidate instants, or `none` when rule evaluation raises. -/
abbrev Oracle := String → Instant → Instant → Instant → Option (List Instant)

/-- The converted end instant of a record (`dtend`): absent when the
column is NULL, otherwise `from_epoch` of the raw value (which may
itself fail, leaving the end absent). -/
def dtendOf (r : EventRecord) (unit : Int) : Option Instant :=
  match r.event_end with
  | none => none
  | some e => from_epoch (some e) unit

/-- Per-record resolution: skip the record when the start does not
convert; expand via the oracle when a (non-empty, per Python truthiness)
RRULE is present, falling back to the anchor on oracle failure; otherwise
overlap-test the anchor directly. -/
def processRecord (oracle : Oracle) (unit sod eod : Instant)
    (exceptions : List (Int × Int)) (r : EventRecord) : List Occ :=
  match from_epoch r.event_start unit with
  | none => []
  | some dtstart =>
      let dtend := dtendOf r unit
      match r.rrule with
      | some rule =>
          if rule = "" then singleOcc sod eod dtstart dtend
          else
            let duration : Option Int := dtend.map (fun de => de - dtstart)
            match oracle rule dtstart sod eod with
            | some insts =>
                insts.filterMap (candidateOcc exceptions r.cal_id duration unit sod eod)
            | none => singleOcc sod eod dtstart dtend
      | none => singleOcc sod eod dtstart dtend

/-- One candidate store, as the resolution loop sees it. -/
inductive Store where
  | openFail : String → Store
  | noCal : Store
  | queryFail : String → Store
  | ok : List EventRecord → List (Int × Int) → Store
deriving Repr, DecidableEq

/-- A store that contributes no occurrences because it failed
(snapshot/open failure, missing table, failed structured read). -/
def Store.failed : Store → Prop
  | .ok _ _ => False
  | _ => True

/-- Occurrences contributed by one store: an unusable store contributes
nothing; a usable one is drained record by record with its single
inferred unit. -/
def processStore (oracle : Oracle) (sod eod : Instant) : Store → List Occ
  | .openFail _ => []
  | .noCal => []
  | .queryFail _ => []
  | .ok events exceptions =>
      events.flatMap (processRecord oracle (detect_unit events) sod eod exceptions)

/-- State of `todays_instances` after the store loop: concatenation over the
candidate stores in order. -/
def todaysInstances (oracle : Oracle) (sod eod : Instant)
    (stores : List Store) : List Occ :=
  (stores.map (processStore oracle sod eod)).flatten

/-- The tuple `get_meetings` returns, minus the debug string:
next-meeting start (`"--"` ↦ `none`), meetings-left count, error. -/
structure ResolutionResult where
  nextStart : Option Instant
  remaining : Nat
  error : Option String
deriving Repr, DecidableEq

/-- Sort key of `todays_instances.sort(key=lambda t: t[0])`. -/
def occLe (a b : Occ) : Bool := decide (a.1 ≤ b.1)

/-- The `left_instances` predicate:
`(e is not None and e >= now) or (e is None and s >= now)`. -/
def leftPred (now : Instant) (o : Occ) : Bool :=
  match o.2 with
  | some e => decide (now ≤ e)
  | none => decide (now ≤ o.1)

/-- Model of `get_meetings`: the resolution run.  `profileFound` abstracts
`find_thunderbird_profile()` succeeding; `stores` is the candidate
sequence with each store's fate; window and `now` are passed explicitly. -/
def get_meetings (profileFound : Bool) (stores : List Store) (oracle : Oracle)
    (sod eod now : Instant) : ResolutionResult :=
  if !profileFound then ⟨none, 0, some "Profile not found"⟩
  else if stores = [] then ⟨none, 0, some "No .sqlite candidates found"⟩
  else
    let todays := todaysInstances oracle sod eod stores
    if todays = [] then ⟨none, 0, none⟩
    else
      let sorted := todays.mergeSort occLe
      let left := sorted.filter (leftPred now)
      let next := (sorted.find? (fun o => decide (now ≤ o.1))).map (fun o => o.1)
      ⟨next, left.length, none⟩

/-- Two-digit rendering of an hour/minute component (`strftime`). -/
def fmt2 (n : Nat) : String :=
  if n < 10 then "0" ++ toString n else toString n

/-- Rendering `strftime("%H:%M")` of a local instant (the local day is µs-aligned
to the epoch in this model). -/
def fmtTime (t : Instant) : String :=
  let mins := (Int.fdiv t 60000000) % 1440
  fmt2 ((mins / 60).toNat) ++ ":" ++ fmt2 ((mins % 60).toNat)

/-- Field `next_meeting_time` as printed: `"--"` or `"HH:MM"`. -/
def fmtNext : Option Instant → String
  | none => "--"
  | some t => fmtTime t

/-- The `__main__` rendering: waybar `text` plus the tooltip lines
(joining them with newlines is mechanical JSON/text output, out of the
core's scope).  An error run renders `"-- | 0"` with an `Error:` line;
a normal run renders next time and count with `Next meeting:` /
`Left today:` lines; a non-empty debug string is appended either way. -/
def render (res : ResolutionResult) (debug : Option String) :
    String × List String :=
  let tooltip_lines :=
    match res.error with
    | some msg => ["Error: " ++ msg]
    | none =>
        ["Next meeting: " ++ fmtNext res.nextStart,
         "Left today: " ++ toString res.remaining]
  let tooltip_lines :=
    match debug with
    | some d => if d = "" then tooltip_lines else tooltip_lines ++ [d]
    | none => tooltip_lines
  let text :=
    match res.error with
    | some _ => "-- | 0"
    | none => fmtNext res.nextStart ++ " | " ++ toString res.remaining
  (text, tooltip_lines)

/-! ### Helper lemmas -/

/-- Membership in the single/anchor branch forces the window guard. -/
lemma mem_singleOcc {sod eod s : Instant} {e : Option Instant} {o : Occ}
    (h : o ∈ singleOcc sod eod s e) :
    o = (s, e) ∧ (starts_today sod eod s || overlaps_today sod eod s e) = true := by
  unfold singleOcc at h
  split at h
  · simp only [List.mem_singleton] at h
    exact ⟨h, by assumption⟩
  · simp at h

/-- A candidate that survives determines its shape and the window guard. -/
lemma candidateOcc_eq_some {exc : List (Int × Int)} {cid : Int}
    {dur : Option Int} {unit sod eod inst : Instant} {o : Occ}
    (h : candidateOcc exc cid dur unit sod eod inst = some o) :
    o.1 = inst ∧ o.2 = instEnd dur inst ∧
      (starts_today sod eod o.1 || overlaps_today sod eod o.1 o.2) = true := by
  simp only [candidateOcc] at h
  by_cases hm : (cid, to_epoch inst unit) ∈ exc
  · rw [if_pos hm] at h
    exact absurd h (by simp)
  · rw [if_neg hm] at h
    split at h
    · cases h
      exact ⟨rfl, rfl, by assumption⟩
    · exact absurd h (by simp)

/-- The boolean window guard, read back as the spec's disjunction. -/
lemma window_of_guard {sod eod s : Instant} {e : Option Instant}
    (h : (starts_today sod eod s || overlaps_today sod eod s e) = true) :
    (sod ≤ s ∧ s ≤ eod) ∨ ∃ ev, e = some ev ∧ s ≤ eod ∧ sod ≤ ev := by
  cases e with
  | none =>
      simp only [starts_today, overlaps_today, Bool.or_false, decide_eq_true_eq] at h
      exact Or.inl h
  | some ev =>
      simp only [starts_today, overlaps_today, Bool.or_eq_true, decide_eq_true_eq] at h
      rcases h with h | h
      · exact Or.inl h
      · exact Or.inr ⟨ev, rfl, h⟩

/-- Test for end instant ≥ now: the ongoing-or-future test for occurrences that
carry an end. -/
def endRemains (now : Instant) (o : Occ) : Bool :=
  match o.2 with
  | some e => decide (now ≤ e)
  | none => false

/-- Test for no end and start instant ≥ now: the future-only test for
end-less occurrences. -/
def noEndRemains (now : Instant) (o : Occ) : Bool :=
  o.2.isNone && decide (now ≤ o.1)

/-- The `left_instances` predicate splits into the two disjoint cases of
the spec's remaining-count definition. -/
lemma countP_left_split (now : Instant) : ∀ l : List Occ,
    l.countP (leftPred now) =
      l.countP (endRemains now) + l.countP (noEndRemains now)
  | [] => rfl
  | o :: t => by
      rcases ho : o.2 with _ | e
      · simp only [List.countP_cons, leftPred, endRemains, noEndRemains, ho,
          Option.isNone_none, Bool.true_and, countP_left_split now t]
        cases hd : decide (now ≤ o.1) <;> (simp; try omega)
      · simp only [List.countP_cons, leftPred, endRemains, noEndRemains, ho,
          Option.isNone_some, Bool.false_and, countP_left_split now t]
        cases hd : decide (now ≤ e) <;> (simp; try omega)

/-- Folding `min` over elements all above `a` returns `a`. -/
lemma foldl_min_eq_self : ∀ (xs : List Int) (a : Int),
    (∀ x ∈ xs, a ≤ x) → xs.foldl min a = a
  | [], _, _ => rfl
  | x :: xs, a, h => by
      rw [List.foldl_cons, min_eq_left (h x (List.mem_cons_self x xs))]
      exact foldl_min_eq_self xs a fun y hy => h y (List.mem_cons_of_mem x hy)

/-- The list minimum only depends on the multiset of elements. -/
lemma min?_perm {l₁ l₂ : List Int} (h : l₁.Perm l₂) : l₁.min? = l₂.min? := by
  have hiff : ∀ (xs : List Int) (a : Int),
      xs.min? = some a ↔ a ∈ xs ∧ ∀ b ∈ xs, a ≤ b := fun xs a =>
    @List.min?_eq_some_iff Int a _ _ ⟨fun h₁ h₂ => le_antisymm h₁ h₂⟩
      (fun x => le_refl x) (fun x y => min_choice x y)
      (fun _ _ _ => le_min_iff) xs
  cases e₁ : l₁.min? with
  | none =>
      obtain rfl := List.min?_eq_none_iff.mp e₁
      rw [h.symm.eq_nil]
      exact rfl
  | some a =>
      obtain ⟨hmem, hle⟩ := (hiff l₁ a).mp e₁
      exact ((hiff l₂ a).mpr
        ⟨h.mem_iff.mp hmem, fun b hb => hle b (h.mem_iff.mpr hb)⟩).symm

/-- In a list sorted by start, the first element whose start is ≥ `now`
is the least start ≥ `now` (and there is none exactly when no start
qualifies). -/
lemma sorted_find?_eq_min?_filter (now : Instant) : ∀ l : List Occ,
    l.Pairwise (fun a b => occLe a b = true) →
    ((l.find? fun o => decide (now ≤ o.1)).map fun o => o.1) =
      ((l.map fun o => o.1).filter fun s => decide (now ≤ s)).min?
  | [], _ => rfl
  | a :: t, hp => by
      obtain ⟨ha, ht⟩ := List.pairwise_cons.mp hp
      by_cases hnow : now ≤ a.1
      · rw [List.find?_cons_of_pos _ (by simpa using hnow), List.map_cons,
          List.filter_cons_of_pos (by simpa using hnow), List.min?_cons',
          Option.map_some', foldl_min_eq_self]
        intro x hx
        rw [List.mem_filter] at hx
        obtain ⟨hx, -⟩ := hx
        rw [List.mem_map] at hx
        obtain ⟨o, ho, rfl⟩ := hx
        have := ha o ho
        simpa [occLe] using this
      · rw [List.find?_cons_of_neg _ (by simpa using hnow), List.map_cons,
          List.filter_cons_of_neg (by simpa using hnow)]
        exact sorted_find?_eq_min?_filter now t ht

/-- The sort key is transitive. -/
lemma occLe_trans : ∀ a b c : Occ,
    occLe a b = true → occLe b c = true → occLe a c = true := by
  intro a b c
  simp only [occLe, decide_eq_true_eq]
  exact le_trans

/-- The sort key is total. -/
lemma occLe_total : ∀ a b : Occ, (occLe a b || occLe b a) = true := by
  intro a b
  simp only [occLe, Bool.or_eq_true, decide_eq_true_eq]
  exact le_total a.1 b.1

/-! ### Claim theorems -/

/-- C1: the remaining count of a resolution run is the number of
aggregated Occurrences whose end is ≥ now plus the number of end-less
Occurrences whose start is ≥ now — ongoing and future meetings count,
finished ones do not. -/
theorem remaining_count_projection (stores : List Store) (oracle : Oracle)
    (sod eod now : Instant) :
    (get_meetings true stores oracle sod eod now).remaining =
      (todaysInstances oracle sod eod stores).countP (endRemains now) +
      (todaysInstances oracle sod eod stores).countP (noEndRemains now) := by
  by_cases hs : stores = []
  · subst hs
    simp [get_meetings, todaysInstances]
  · by_cases ht : todaysInstances oracle sod eod stores = []
    · simp [get_meetings, hs, ht]
    · simp only [get_meetings, Bool.not_true, Bool.false_eq_true, if_false,
        if_neg hs, if_neg ht]
      rw [← List.countP_eq_length_filter,
        List.Perm.countP_eq _ (List.mergeSort_perm _ occLe),
        countP_left_split]

/-- C2: the next-meeting projection of a resolution run is the least
start instant ≥ now over all aggregated Occurrences (none when no start
qualifies), regardless of whether a meeting is already ongoing. -/
theorem next_start_projection (stores : List Store) (oracle : Oracle)
    (sod eod now : Instant) :
    (get_meetings true stores oracle sod eod now).nextStart =
      (((todaysInstances oracle sod eod stores).map fun o => o.1).filter
        fun s => decide (now ≤ s)).min? := by
  by_cases hs : stores = []
  · subst hs
    simp [get_meetings, todaysInstances]
  · by_cases ht : todaysInstances oracle sod eod stores = []
    · simp [get_meetings, hs, ht]
    · simp only [get_meetings, Bool.not_true, Bool.false_eq_true, if_false,
        if_neg hs, if_neg ht]
      rw [sorted_find?_eq_min?_filter now _
        (List.sorted_mergeSort occLe_trans occLe_total _)]
      exact min?_perm (((List.mergeSort_perm _ occLe).map _).filter _)

/-- C3: if the Exception Set holds `(S, T)` and a candidate instant of a
recurring record with series id `S` has lookup key `T` (converted to the
reference zone and quantized with the store's unit by `to_epoch`), that
candidate yields no Occurrence, and the record's whole contribution is
exactly the per-candidate map — so the suppressed candidate is absent
from the final result. -/
theorem exception_suppression (oracle : Oracle) (unit sod eod : Instant)
    (exceptions : List (Int × Int)) (r : EventRecord) (rule : String)
    (dtstart : Instant) (insts : List Instant) (inst : Instant)
    (hr : r.rrule = some rule) (hne : rule ≠ "")
    (hs : from_epoch r.event_start unit = some dtstart)
    (ho : oracle rule dtstart sod eod = some insts)
    (_hmem : inst ∈ insts)
    (hexc : (r.cal_id, to_epoch inst unit) ∈ exceptions) :
    candidateOcc exceptions r.cal_id
        ((dtendOf r unit).map (fun de => de - dtstart)) unit sod eod inst = none ∧
    processRecord oracle unit sod eod exceptions r =
      insts.filterMap (candidateOcc exceptions r.cal_id
        ((dtendOf r unit).map (fun de => de - dtstart)) unit sod eod) := by
  constructor
  · unfold candidateOcc
    rw [if_pos hexc]
  · simp only [processRecord, hs, hr, if_neg hne, ho]

/-- C3 witness: a concrete cancelled instance is suppressed. -/
theorem exception_suppression_witness :
    candidateOcc [((7 : Int), (0 : Int))] 7
        ((dtendOf ⟨1, 7, some 0, none, none, some "FREQ=DAILY"⟩ 1).map
          (fun de => de - 0)) 1 0 1000000 5 = none :=
  (exception_suppression (fun _ _ _ _ => some [5]) 1 0 1000000
    [((7 : Int), (0 : Int))] ⟨1, 7, some 0, none, none, some "FREQ=DAILY"⟩
    "FREQ=DAILY" 0 [5] 5 rfl (by decide) (by decide) rfl (by decide)
    (by decide)).1

/-- C4: every aggregated Occurrence starts inside the day window, or has
an end and its `[start, end]` interval overlaps the window. -/
theorem occurrence_in_window (stores : List Store) (oracle : Oracle)
    (sod eod : Instant) (o : Occ)
    (h : o ∈ todaysInstances oracle sod eod stores) :
    (sod ≤ o.1 ∧ o.1 ≤ eod) ∨ ∃ e, o.2 = some e ∧ o.1 ≤ eod ∧ sod ≤ e := by
  unfold todaysInstances at h
  rw [List.mem_flatten] at h
  obtain ⟨l, hl, ho⟩ := h
  rw [List.mem_map] at hl
  obtain ⟨st, -, rfl⟩ := hl
  cases st with
  | openFail m => simp [processStore] at ho
  | noCal => simp [processStore] at ho
  | queryFail m => simp [processStore] at ho
  | ok evs exc =>
      simp only [processStore] at ho
      rw [List.mem_flatMap] at ho
      obtain ⟨r, -, ho⟩ := ho
      unfold processRecord at ho
      split at ho
      · simp at ho
      · split at ho
        · split at ho
          · obtain ⟨rfl, hg⟩ := mem_singleOcc ho
            exact window_of_guard hg
          · split at ho
            · rw [List.mem_filterMap] at ho
              obtain ⟨inst, -, hinst⟩ := ho
              obtain ⟨-, -, hg⟩ := candidateOcc_eq_some hinst
              exact window_of_guard hg
            · obtain ⟨rfl, hg⟩ := mem_singleOcc ho
              exact window_of_guard hg
        · obtain ⟨rfl, hg⟩ := mem_singleOcc ho
          exact window_of_guard hg

/-- C4 witness: a concrete in-window occurrence satisfies the invariant. -/
theorem occurrence_in_window_witness :
    ((0 : Int) ≤ (50 : Int) ∧ (50 : Int) ≤ (100 : Int)) ∨
      ∃ e, (none : Option Instant) = some e ∧ (50 : Int) ≤ 100 ∧ (0 : Int) ≤ e :=
  occurrence_in_window [Store.ok [⟨1, 2, some 50, none, none, none⟩] []]
    (fun _ _ _ _ => none) 0 100 ((50 : Instant), (none : Option Instant))
    (by decide)

/-- C5: unit inference classifies a store by the magnitude of its
maximum start timestamp (≥ 10¹⁵ → µs factor 1 000 000; ≥ 10¹² → ms
factor 1 000; ≥ 10⁹ → s factor 1; otherwise, including an empty events
table, the default µs), and that single factor is the one applied to
every timestamp of the store during the run. -/
theorem detect_unit_classification (events : List EventRecord)
    (oracle : Oracle) (sod eod : Instant) (exc : List (Int × Int)) :
    ((events.filterMap (fun e => e.event_start)).max? = none →
        detect_unit events = 1000000) ∧
    (∀ v : Int, (events.filterMap (fun e => e.event_start)).max? = some v →
        (10 ^ 15 ≤ v.natAbs → detect_unit events = 1000000) ∧
        (v.natAbs < 10 ^ 15 → 10 ^ 12 ≤ v.natAbs → detect_unit events = 1000) ∧
        (v.natAbs < 10 ^ 12 → 10 ^ 9 ≤ v.natAbs → detect_unit events = 1) ∧
        (v.natAbs < 10 ^ 9 → detect_unit events = 1000000)) ∧
    processStore oracle sod eod (Store.ok events exc) =
      events.flatMap (processRecord oracle (detect_unit events) sod eod exc) := by
  refine ⟨fun hm => ?_, fun v hm => ?_, rfl⟩
  · simp only [detect_unit, hm]
  · refine ⟨fun h1 => ?_, fun h1 h2 => ?_, fun h1 h2 => ?_, fun h1 => ?_⟩ <;>
      simp only [detect_unit, hm]
    · rw [if_pos h1]
    · rw [if_neg (by omega), if_pos h2]
    · rw [if_neg (by omega), if_neg (by omega), if_pos h2]
    · rw [if_neg (by omega), if_neg (by omega), if_neg (by omega)]

/-- C5 witness: a maximum start of seconds magnitude yields factor 1. -/
theorem detect_unit_classification_witness :
    detect_unit [⟨1, 2, some 1700000000, none, none, none⟩] = 1 := by
  have h := detect_unit_classification
    [⟨1, 2, some 1700000000, none, none, none⟩] (fun _ _ _ _ => none) 0 0 []
  exact ((h.2.1 1700000000 (by decide)).2.2.1 (by decide) (by decide))

/-- C6 counterexample: a recurring record with an end equal to its start
(present end, zero duration) survives with an absent end, not with
`end = candidate start + (original end − original start)`: Python's
`if duration` truthiness drops a zero duration. -/
theorem duration_zero_end_dropped :
    ¬ ∀ o ∈ processRecord (fun _ _ _ _ => some [5000]) 1000000 0 86399999999 []
        ⟨1, 2, some 1000, some 1000, none, some "FREQ=DAILY"⟩,
      o.2 = some (o.1 + ((1000 : Int) - 1000)) := by
  decide

/-- C6 amended: each surviving candidate of a recurring record carries
`end = candidate start + (converted end − converted start)` when the
original end is present, converts, and that duration is non-zero;
when the duration is zero, or the end is absent or unconvertible, the
candidate's end is absent (`instEnd` is exactly this case split). -/
theorem candidate_end_matches_duration (oracle : Oracle)
    (unit sod eod : Instant) (exc : List (Int × Int)) (r : EventRecord)
    (rule : String) (dtstart : Instant) (insts : List Instant)
    (hr : r.rrule = some rule) (hne : rule ≠ "")
    (hs : from_epoch r.event_start unit = some dtstart)
    (ho : oracle rule dtstart sod eod = some insts) :
    ∀ o ∈ processRecord oracle unit sod eod exc r,
      o.2 = instEnd ((dtendOf r unit).map fun de => de - dtstart) o.1 := by
  intro o hmem
  simp only [processRecord, hs, hr, if_neg hne, ho] at hmem
  rw [List.mem_filterMap] at hmem
  obtain ⟨inst, -, hinst⟩ := hmem
  obtain ⟨h1, h2, -⟩ := candidateOcc_eq_some hinst
  rw [h2, h1]

/-- C6 witness: a 1.8-second duration is carried onto the candidate
occurrence `(5000, some 6800)`. -/
theorem candidate_end_matches_duration_witness :
    ((5000 : Instant), some (6800 : Instant)).2 =
      instEnd ((dtendOf ⟨1, 2, some 1000, some 2800, none, some "FREQ=DAILY"⟩
        1000000).map fun de => de - 1000) ((5000 : Instant), some (6800 : Instant)).1 :=
  candidate_end_matches_duration (fun _ _ _ _ => some [5000]) 1000000 0
    10000000 [] ⟨1, 2, some 1000, some 2800, none, some "FREQ=DAILY"⟩
    "FREQ=DAILY" 1000 [5000] rfl (by decide) (by decide) rfl
    ((5000 : Instant), some (6800 : Instant)) (by decide)

/-- C7: when the oracle cannot evaluate a recurrence rule, the record's
anchor start/end is overlap-tested as a single non-recurring candidate;
the failure stays inside the record's processing. -/
theorem rule_failure_fallback (oracle : Oracle) (unit sod eod : Instant)
    (exc : List (Int × Int)) (r : EventRecord) (rule : String)
    (dtstart : Instant)
    (hr : r.rrule = some rule) (hne : rule ≠ "")
    (hs : from_epoch r.event_start unit = some dtstart)
    (ho : oracle rule dtstart sod eod = none) :
    processRecord oracle unit sod eod exc r =
      singleOcc sod eod dtstart (dtendOf r unit) := by
  simp only [processRecord, hs, hr, if_neg hne, ho]

/-- C7 witness: a failing rule degrades to the anchor occurrence. -/
theorem rule_failure_fallback_witness :
    processRecord (fun _ _ _ _ => none) 1000000 0 1000 []
        ⟨1, 2, some 50, some 70, none, some "BROKEN"⟩ =
      singleOcc 0 1000 50 (dtendOf ⟨1, 2, some 50, some 70, none, some "BROKEN"⟩ 1000000) :=
  rule_failure_fallback (fun _ _ _ _ => none) 1000000 0 1000 []
    ⟨1, 2, some 50, some 70, none, some "BROKEN"⟩ "BROKEN" 50
    rfl (by decide) (by decide) rfl

/-- C10: a record whose end timestamp fails to convert is processed
exactly as the same record without an end (overlap-tested on start only,
end absent downstream); only a failed start conversion skips the record. -/
theorem end_decode_failure_isolated (oracle : Oracle) (unit sod eod : Instant)
    (exc : List (Int × Int)) (r : EventRecord) (e : Int)
    (he : r.event_end = some e) (hfail : from_epoch (some e) unit = none) :
    processRecord oracle unit sod eod exc r =
      processRecord oracle unit sod eod exc
        ⟨r.id, r.cal_id, r.event_start, none, r.event_start_tz, r.rrule⟩ ∧
    (from_epoch r.event_start unit = none →
      processRecord oracle unit sod eod exc r = []) := by
  constructor
  · simp only [processRecord, dtendOf, he, hfail]
  · intro hnone
    simp only [processRecord, hnone]

/-- C10 witness: an out-of-range end keeps the record alive, end-absent. -/
theorem end_decode_failure_isolated_witness :
    processRecord (fun _ _ _ _ => none) 1 0 1000000000000 []
        ⟨1, 2, some 50, some 1000000000000, none, none⟩ =
      processRecord (fun _ _ _ _ => none) 1 0 1000000000000 []
        ⟨1, 2, some 50, none, none, none⟩ :=
  (end_decode_failure_isolated (fun _ _ _ _ => none) 1 0 1000000000000 []
    ⟨1, 2, some 50, some 1000000000000, none, none⟩ 1000000000000
    rfl (by decide)).1

/-- C8: per-store and per-record failures are isolated — removing a
failed store from the candidate sequence does not change the run's
result; a record whose start does not convert leaves every other
record's contribution (under the store's one inferred unit) in place;
and a user-visible error occurs only when no profile or no candidate
store exists at all. -/
theorem failure_isolation (oracle : Oracle) (sod eod now : Instant) :
    (∀ (s₁ s₂ : List Store) (st : Store), st.failed → s₁ ++ s₂ ≠ [] →
        get_meetings true (s₁ ++ st :: s₂) oracle sod eod now =
          get_meetings true (s₁ ++ s₂) oracle sod eod now) ∧
    (∀ (evs₁ evs₂ : List EventRecord) (r : EventRecord) (exc : List (Int × Int)),
        from_epoch r.event_start (detect_unit (evs₁ ++ r :: evs₂)) = none →
        processStore oracle sod eod (Store.ok (evs₁ ++ r :: evs₂) exc) =
          evs₁.flatMap
            (processRecord oracle (detect_unit (evs₁ ++ r :: evs₂)) sod eod exc) ++
          evs₂.flatMap
            (processRecord oracle (detect_unit (evs₁ ++ r :: evs₂)) sod eod exc)) ∧
    (∀ (pf : Bool) (stores : List Store) (msg : String),
        (get_meetings pf stores oracle sod eod now).error = some msg →
        pf = false ∨ stores = []) := by
  refine ⟨fun s₁ s₂ st hf hne => ?_, fun evs₁ evs₂ r exc hr => ?_,
    fun pf stores msg herr => ?_⟩
  · have hto : todaysInstances oracle sod eod (s₁ ++ st :: s₂) =
        todaysInstances oracle sod eod (s₁ ++ s₂) := by
      unfold todaysInstances
      rw [List.map_append, List.map_append, List.map_cons,
        List.flatten_append, List.flatten_append, List.flatten_cons]
      have hst : processStore oracle sod eod st = [] := by
        cases st with
        | ok a b => exact absurd hf (by simp [Store.failed])
        | openFail m => rfl
        | noCal => rfl
        | queryFail m => rfl
      rw [hst, List.nil_append]
    have h1 : (s₁ ++ st :: s₂) ≠ [] := by simp
    simp only [get_meetings, Bool.not_true, Bool.false_eq_true, if_false,
      if_neg h1, if_neg hne, hto]
  · simp only [processStore, List.flatMap_append, List.flatMap_cons]
    have hz : processRecord oracle (detect_unit (evs₁ ++ r :: evs₂)) sod eod exc r
        = [] := by
      simp only [processRecord, hr]
    rw [hz, List.nil_append]
  · cases pf with
    | false => exact Or.inl rfl
    | true =>
        by_cases hs : stores = []
        · exact Or.inr hs
        · exfalso
          simp only [get_meetings, Bool.not_true, Bool.false_eq_true, if_false,
            if_neg hs] at herr
          split at herr <;> simp at herr

/-- C8 witness: dropping a failed first store leaves the result of the
surviving second store unchanged. -/
theorem failure_isolation_witness :
    get_meetings true
        [Store.openFail "io", Store.ok [⟨1, 2, some 50, none, none, none⟩] []]
        (fun _ _ _ _ => none) 0 100 0 =
      get_meetings true [Store.ok [⟨1, 2, some 50, none, none, none⟩] []]
        (fun _ _ _ _ => none) 0 100 0 :=
  (failure_isolation (fun _ _ _ _ => none) 0 100 0).1 []
    [Store.ok [⟨1, 2, some 50, none, none, none⟩] []] (Store.openFail "io")
    trivial (by simp)

/-- The first tooltip line the renderer emits, by result shape. -/
lemma render_tooltip_head (res : ResolutionResult) (d : Option String) :
    (render res d).2.head? =
      some (match res.error with
            | some msg => "Error: " ++ msg
            | none => "Next meeting: " ++ fmtNext res.nextStart) := by
  rcases d with _ | d
  · cases he : res.error <;> simp [render, he]
  · by_cases hd : d = "" <;> cases he : res.error <;> simp [render, he, hd]

/-- C9: a run that fails and a run that legitimately finds zero
occurrences produce distinct `ResolutionResult` shapes (error present
versus error absent) and are never rendered identically — their first
tooltip lines already differ. -/
theorem zero_vs_error_distinct (stores : List Store) (oracle : Oracle)
    (sod eod now : Instant) (res₁ : ResolutionResult) (msg : String)
    (d₁ d₂ : Option String)
    (h₁ : res₁.error = some msg)
    (hs : stores ≠ [])
    (hz : todaysInstances oracle sod eod stores = []) :
    (get_meetings true stores oracle sod eod now).error = none ∧
    res₁ ≠ get_meetings true stores oracle sod eod now ∧
    render res₁ d₁ ≠ render (get_meetings true stores oracle sod eod now) d₂ := by
  have hg : get_meetings true stores oracle sod eod now = ⟨none, 0, none⟩ := by
    simp only [get_meetings, Bool.not_true, Bool.false_eq_true, if_false,
      if_neg hs, hz, if_pos]
  refine ⟨by rw [hg], fun he => ?_, fun he => ?_⟩
  · rw [he, hg] at h₁
    exact Option.noConfusion h₁
  · rw [hg] at he
    have h2 := congrArg (fun p => p.2.head?) he
    simp only [render_tooltip_head, h₁] at h2
    rw [Option.some_inj] at h2
    have h3 : ("Error: " ++ msg).data.head? =
        ("Next meeting: " ++ fmtNext none).data.head? :=
      congrArg List.head? (congrArg String.data h2)
    have hL : ("Error: " ++ msg).data.head? = some 'E' := by
      rw [String.data_append]; rfl
    have hR : ("Next meeting: " ++ fmtNext none).data.head? = some 'N' := rfl
    rw [hL, hR] at h3
    simp at h3

/-- C9 witness: the profile-missing error run versus an empty-store
zero-meetings run. -/
theorem zero_vs_error_distinct_witness :
    (get_meetings true [Store.noCal] (fun _ _ _ _ => none) 0 100 0).error = none ∧
    get_meetings false [] (fun _ _ _ _ => none) 0 100 0 ≠
      get_meetings true [Store.noCal] (fun _ _ _ _ => none) 0 100 0 ∧
    render (get_meetings false [] (fun _ _ _ _ => none) 0 100 0) none ≠
      render (get_meetings true [Store.noCal] (fun _ _ _ _ => none) 0 100 0)
        (some "dbg") :=
  zero_vs_error_distinct [Store.noCal] (fun _ _ _ _ => none) 0 100 0
    (get_meetings false [] (fun _ _ _ _ => none) 0 100 0) "Profile not found"
    none (some "dbg") rfl (by simp) (by decide)

end Meetings
